import Mathlib

set_option maxRecDepth 10000

/-
Verification of the mpy-audio-player streaming engine (src/audio_player.py).

The Python source is shallowly embedded below:
* the fixed volume table and the three volume-control methods;
* the non-loop streaming loops `_play16` / `_play8`, modelled as pure
  functions from an abstract wave file (the Sample Source interface:
  total frame count plus a frame-indexed sample function) to the list of
  per-chunk traces (frames read, values written to the output backend);
* the lifecycle state touched by `begin` / `play` / `stop` that decides
  which backend object is configured, with `Option` marking the paths
  that dereference an unconfigured (`None`) backend.

Python integers are embedded as `Int` (or `Nat` for cursors and counts),
and Python floor division `//` as `Int.fdiv`.  External mutable state that
the loops only sample once per chunk (the stop flag `self.fstop`, the
volume level `self.volume`) is passed as a function of the chunk index.
The per-sample `custom_delay` only spends time and is not modelled.
-/

namespace AudioPlayer

/-! ## Volume table and volume controls (source lines 57-58, 104-114) -/

/-- Source `self.volumes = [49,31,21,15,11,9,7,6,5,4,3,2,1]` from `__init__`. -/
def volumes : List Int := [49, 31, 21, 15, 11, 9, 7, 6, 5, 4, 3, 2, 1]

/-- Source `volume_up`: `if self.volume < 12: self.volume += 1`. -/
def volume_up (volume : Int) : Int :=
  if volume < 12 then volume + 1 else volume

/-- Source `volume_down`: `if self.volume > 0: self.volume -= 1`. -/
def volume_down (volume : Int) : Int :=
  if 0 < volume then volume - 1 else volume

/-- Source `set_volume(v)`: `if 0 <= v <= 12: self.volume = v`. -/
def set_volume (volume v : Int) : Int :=
  if 0 ≤ v ∧ v ≤ 12 then v else volume

/-! ## Sample Source interface (the `wave` collaborator, spec section 4.1)

`readframes(n)` returns up to `n` samples starting at the current cursor
and advances the cursor; `setpos(p)` repositions the cursor.  The file is
abstracted as its total frame count and a frame-indexed sample function
(already decoded: signed 16-bit values for `array('h')`, unsigned byte
values for `array('B')`). -/

structure WaveFile where
  totalFrames : Nat
  sample : Nat → Int

/-- Source `self.audiofile.readframes(n)` issued while the cursor sits at
`cursor`: the samples at frames `[cursor, min (cursor+n) totalFrames)`. -/
def readframes (f : WaveFile) (cursor n : Nat) : List Int :=
  (List.range (min n (f.totalFrames - cursor))).map fun i => f.sample (cursor + i)

/-! ## The non-loop streaming loops `_play16` and `_play8`
(source lines 123-161) -/

/-- One iteration of the chunk loop, as observed from outside: which
frames were read (`readframes` start and number of samples returned) and
the values written to the output backend, in order. -/
structure ChunkTrace where
  readStart : Nat
  readCount : Nat
  writes : List Int
deriving DecidableEq, Repr

/-- The number of iterations of `range(buffersize, total_frames,
buffersize)`: the multiples `k * buffersize` with `k ≥ 1` that are
strictly below `total_frames`, i.e. `(total_frames - 1) / buffersize`
of them (for `buffersize > 0`; see `mem_loopPositions`). -/
def numChunks (totalFrames buffersize : Nat) : Nat :=
  (totalFrames - 1) / buffersize

/-- The value list of `range(buffersize, total_frames, buffersize)`. -/
def loopPositions (totalFrames buffersize : Nat) : List Nat :=
  (List.range' 1 (numChunks totalFrames buffersize)).map fun k => k * buffersize

/-- The chunk loop of `_play16`, one level below `_play16` itself: it
walks the remaining loop positions with `k` the 0-based chunk index and
`cursor` the file position the previous `setpos` left behind (0 at
entry).  Per iteration, mirroring source lines 128-142:
`if self.fstop: return`; `readframes(buffersize)`;
`setpos(position)` (the recursive call resumes the cursor at `position`);
`volume = self.volumes[self.volume]` then `volume *= 128 if self.pwm_out
else 16`; then for `i in range(buffersize)` write `128 + buf[i] // volume`
to the PWM channel, or `2048 + buf[i] // volume` to the DAC.  `buf[i]`
raises `IndexError` when the read returned fewer than `buffersize`
samples; that path is the `none` result. -/
def play16loop (f : WaveFile) (pwm_out : Bool) (buffersize : Nat)
    (fstop : Nat → Bool) (volumeAt : Nat → Nat) :
    List Nat → Nat → Nat → Option (List ChunkTrace)
  | [], _, _ => some []
  | position :: rest, k, cursor =>
    if fstop k then some []
    else
      let buf := readframes f cursor buffersize
      let volume : Int := volumes.getD (volumeAt k) 0 * (if pwm_out then 128 else 16)
      if buffersize ≤ buf.length then
        let ws := (List.range buffersize).map fun i =>
          if pwm_out then 128 + Int.fdiv (buf.getD i 0) volume
          else 2048 + Int.fdiv (buf.getD i 0) volume
        match play16loop f pwm_out buffersize fstop volumeAt rest (k + 1) position with
        | none => none
        | some t => some (⟨cursor, buf.length, ws⟩ :: t)
      else none

/-- Source `_play16(self)`, non-loop streaming of mono signed 16-bit data:
`for position in range(self.buffersize, self.total_frames,
self.buffersize)` running the chunk body above, starting with chunk
index 0 and the file cursor at frame 0. -/
def _play16 (f : WaveFile) (pwm_out : Bool) (buffersize : Nat)
    (fstop : Nat → Bool) (volumeAt : Nat → Nat) : Option (List ChunkTrace) :=
  play16loop f pwm_out buffersize fstop volumeAt
    (loopPositions f.totalFrames buffersize) 0 0

/-- The chunk loop of `_play8`, mirroring source lines 149-161: the same
skeleton as `play16loop`, but the volume divisor is
`self.volumes[self.volume]` unscaled and each write value is
`buf[i] // volume` with no centre offset (the same value is written
whether the backend is the PWM channel or the DAC). -/
def play8loop (f : WaveFile) (buffersize : Nat)
    (fstop : Nat → Bool) (volumeAt : Nat → Nat) :
    List Nat → Nat → Nat → Option (List ChunkTrace)
  | [], _, _ => some []
  | position :: rest, k, cursor =>
    if fstop k then some []
    else
      let buf := readframes f cursor buffersize
      let volume : Int := volumes.getD (volumeAt k) 0
      if buffersize ≤ buf.length then
        let ws := (List.range buffersize).map fun i => Int.fdiv (buf.getD i 0) volume
        match play8loop f buffersize fstop volumeAt rest (k + 1) position with
        | none => none
        | some t => some (⟨cursor, buf.length, ws⟩ :: t)
      else none

/-- Source `_play8(self)`, non-loop streaming of mono unsigned 8-bit data. -/
def _play8 (f : WaveFile) (buffersize : Nat)
    (fstop : Nat → Bool) (volumeAt : Nat → Nat) : Option (List ChunkTrace) :=
  play8loop f buffersize fstop volumeAt
    (loopPositions f.totalFrames buffersize) 0 0

/-- All values written to the output backend over a whole run, in order. -/
def allWrites (t : List ChunkTrace) : List Int :=
  (t.map ChunkTrace.writes).flatten

/-! ## Lifecycle state: `__init__`, `begin`, `play`, `stop`
(source lines 43-59, 62-81, 84-102, 116-120)

Only the state that decides which backend object is configured is
modelled; `dac` / `pwm_out` record whether `self.dac` / `self.pwm_out`
is an object rather than `None`.  `play` and `stop` return `none` on the
paths that call a method on `self.dac` while it is `None` (an
`AttributeError` in Python).  The non-loop branch of `play` dispatches to
`_play8` / `_play16`, modelled separately above. -/

structure PlayerState where
  pwm_mode : Bool
  loop : Bool
  dac : Bool
  pwm_out : Bool
  ready : Bool
  fstop : Bool
deriving DecidableEq, Repr

/-- Source `AUDIO_PLAYER.__init__(filename, pwm, loop, thread)`: both backend
slots start as `None`, `ready = False`, `fstop = True`. -/
def AUDIO_PLAYER (pwm leloop : Bool) : PlayerState :=
  { pwm_mode := pwm, loop := leloop, dac := false, pwm_out := false
    ready := false, fstop := true }

/-- Source `begin()`: when `self.pwm_mode`, configure the timer PWM channel
(`self.pwm_out` set, `self.dac` left as `None`); otherwise configure the
DAC.  Then `self.ready = True`. -/
def begin (st : PlayerState) : PlayerState :=
  if st.pwm_mode then { st with pwm_out := true, ready := true }
  else { st with dac := true, ready := true }

/-- Source `play()`: return unless ready; clear the stop flag; in loop mode call
`self.dac.write_timed(...)` — an `AttributeError` (`none`) when
`self.dac` is `None`. -/
def play (st : PlayerState) : Option PlayerState :=
  if ¬ st.ready then some st
  else
    let st1 := { st with fstop := false }
    if st1.loop then
      if st1.dac then some st1 else none
    else some st1

/-- Source `stop()`: return unless ready; set the stop flag; in loop mode call
`self.dac.write(0)` — an `AttributeError` (`none`) when `self.dac` is
`None`. -/
def stop (st : PlayerState) : Option PlayerState :=
  if ¬ st.ready then some st
  else
    let st1 := { st with fstop := true }
    if st1.loop then
      if st1.dac then some st1 else none
    else some st1

/-! ## Characterization of the streaming loops

`expTrace` is the closed form of the trace the loops produce: chunk `k`
reads the full `buffersize` frames `[k*buffersize, (k+1)*buffersize)` and
writes `writesOf k`, until either the positions run out or the stop flag
is observed. -/

/-- The writes of chunk `k` on the 16-bit path, in terms of the file. -/
def chunk16writes (f : WaveFile) (pwm_out : Bool) (buffersize v k : Nat) : List Int :=
  (List.range buffersize).map fun i =>
    if pwm_out then 128 + Int.fdiv (f.sample (k * buffersize + i)) (volumes.getD v 0 * 128)
    else 2048 + Int.fdiv (f.sample (k * buffersize + i)) (volumes.getD v 0 * 16)

/-- The writes of chunk `k` on the 8-bit path, in terms of the file. -/
def chunk8writes (f : WaveFile) (buffersize v k : Nat) : List Int :=
  (List.range buffersize).map fun i =>
    Int.fdiv (f.sample (k * buffersize + i)) (volumes.getD v 0)

/-- Closed form of the trace: `m` chunks remain, `k` is the next chunk
index. -/
def expTrace (writesOf : Nat → List Int) (fstop : Nat → Bool) (buffersize : Nat) :
    Nat → Nat → List ChunkTrace
  | 0, _ => []
  | m + 1, k =>
    if fstop k then []
    else ⟨k * buffersize, buffersize, writesOf k⟩ ::
      expTrace writesOf fstop buffersize m (k + 1)

/-! ## Supporting lemmas -/

theorem readframes_full (f : WaveFile) (cursor B : Nat)
    (h : cursor + B ≤ f.totalFrames) :
    readframes f cursor B = (List.range B).map fun i => f.sample (cursor + i) := by
  unfold readframes
  rw [Nat.min_eq_left (by omega)]

theorem getD_map_range (B i : Nat) (g : Nat → Int) (hi : i < B) :
    ((List.range B).map g).getD i 0 = g i := by
  rw [List.getD_eq_getElem?_getD]
  simp [List.getElem?_map, List.getElem?_range, hi]

theorem numChunks_pos_bound (T B j : Nat) (hB : 0 < B)
    (hj : j < numChunks T B) : (j + 1) * B < T := by
  have h1 : numChunks T B * B ≤ T - 1 := Nat.div_mul_le_self _ _
  have h2 : (j + 1) * B ≤ numChunks T B * B := Nat.mul_le_mul_right _ (by omega)
  have h3 : 0 < (j + 1) * B := Nat.mul_pos (Nat.succ_pos j) hB
  have h4 : (j + 1) * B ≤ T - 1 := le_trans h2 h1
  omega

theorem mem_loopPositions (T B j : Nat) (hj : j < numChunks T B) :
    (j + 1) * B ∈ loopPositions T B := by
  unfold loopPositions
  exact List.mem_map.mpr ⟨j + 1, List.mem_range'_1.mpr ⟨by omega, by omega⟩, rfl⟩

theorem play16loop_spec (f : WaveFile) (pwm_out : Bool) (B : Nat)
    (fstop : Nat → Bool) (volumeAt : Nat → Nat) :
    ∀ m k, (m = 0 ∨ (k + m) * B < f.totalFrames) →
      play16loop f pwm_out B fstop volumeAt
        ((List.range' (k + 1) m).map fun j => j * B) k (k * B) =
      some (expTrace (fun j => chunk16writes f pwm_out B (volumeAt j) j) fstop B m k) := by
  intro m
  induction m with
  | zero => intro k _; simp [play16loop, expTrace]
  | succ m ih =>
    intro k hk
    have hkT : (k + (m + 1)) * B < f.totalFrames := hk.resolve_left (Nat.succ_ne_zero m)
    have hcur : k * B + B ≤ f.totalFrames := by
      have h1 : (k + 1) * B ≤ (k + (m + 1)) * B := Nat.mul_le_mul_right _ (by omega)
      have h2 : k * B + B = (k + 1) * B := by ring
      omega
    rw [List.range'_succ, List.map_cons]
    rw [show play16loop f pwm_out B fstop volumeAt
        ((k + 1) * B :: (List.range' (k + 1 + 1) m).map fun j => j * B) k (k * B) =
      if fstop k then some []
      else
        let buf := readframes f (k * B) B
        let volume : Int := volumes.getD (volumeAt k) 0 * (if pwm_out then 128 else 16)
        if B ≤ buf.length then
          let ws := (List.range B).map fun i =>
            if pwm_out then 128 + Int.fdiv (buf.getD i 0) volume
            else 2048 + Int.fdiv (buf.getD i 0) volume
          match play16loop f pwm_out B fstop volumeAt
              ((List.range' (k + 1 + 1) m).map fun j => j * B) (k + 1) ((k + 1) * B) with
          | none => none
          | some t => some (⟨k * B, buf.length, ws⟩ :: t)
        else none from rfl]
    by_cases hstop : fstop k
    · simp [hstop, expTrace]
    · rw [readframes_full f (k * B) B hcur]
      have hlen : ((List.range B).map fun i => f.sample (k * B + i)).length = B := by
        simp
      rw [expTrace]
      simp only [hstop, if_false, Bool.false_eq_true, hlen, le_refl, if_true]
      have hrec : play16loop f pwm_out B fstop volumeAt
          ((List.range' (k + 1 + 1) m).map fun j => j * B) (k + 1) ((k + 1) * B) =
          some (expTrace (fun j => chunk16writes f pwm_out B (volumeAt j) j) fstop B m (k + 1)) := by
        refine ih (k + 1) ?_
        rcases Nat.eq_zero_or_pos m with hm | hm
        · exact Or.inl hm
        · refine Or.inr ?_
          have h5 : k + 1 + m = k + (m + 1) := by omega
          rw [h5]
          exact hkT
      rw [hrec]
      have hws : ((List.range B).map fun i =>
            if pwm_out then
              128 + Int.fdiv ((((List.range B).map fun i => f.sample (k * B + i)).getD i 0))
                (volumes.getD (volumeAt k) 0 * (if pwm_out then 128 else 16))
            else
              2048 + Int.fdiv ((((List.range B).map fun i => f.sample (k * B + i)).getD i 0))
                (volumes.getD (volumeAt k) 0 * (if pwm_out then 128 else 16))) =
          chunk16writes f pwm_out B (volumeAt k) k := by
        unfold chunk16writes
        refine List.map_congr_left fun i hiB => ?_
        have hi : i < B := List.mem_range.mp hiB
        rw [getD_map_range B i _ hi]
        cases pwm_out <;> simp
      simp only [hws]

theorem play8loop_spec (f : WaveFile) (B : Nat)
    (fstop : Nat → Bool) (volumeAt : Nat → Nat) :
    ∀ m k, (m = 0 ∨ (k + m) * B < f.totalFrames) →
      play8loop f B fstop volumeAt
        ((List.range' (k + 1) m).map fun j => j * B) k (k * B) =
      some (expTrace (fun j => chunk8writes f B (volumeAt j) j) fstop B m k) := by
  intro m
  induction m with
  | zero => intro k _; simp [play8loop, expTrace]
  | succ m ih =>
    intro k hk
    have hkT : (k + (m + 1)) * B < f.totalFrames := hk.resolve_left (Nat.succ_ne_zero m)
    have hcur : k * B + B ≤ f.totalFrames := by
      have h1 : (k + 1) * B ≤ (k + (m + 1)) * B := Nat.mul_le_mul_right _ (by omega)
      have h2 : k * B + B = (k + 1) * B := by ring
      omega
    rw [List.range'_succ, List.map_cons]
    rw [show play8loop f B fstop volumeAt
        ((k + 1) * B :: (List.range' (k + 1 + 1) m).map fun j => j * B) k (k * B) =
      if fstop k then some []
      else
        let buf := readframes f (k * B) B
        let volume : Int := volumes.getD (volumeAt k) 0
        if B ≤ buf.length then
          let ws := (List.range B).map fun i => Int.fdiv (buf.getD i 0) volume
          match play8loop f B fstop volumeAt
              ((List.range' (k + 1 + 1) m).map fun j => j * B) (k + 1) ((k + 1) * B) with
          | none => none
          | some t => some (⟨k * B, buf.length, ws⟩ :: t)
        else none from rfl]
    by_cases hstop : fstop k
    · simp [hstop, expTrace]
    · rw [readframes_full f (k * B) B hcur]
      have hlen : ((List.range B).map fun i => f.sample (k * B + i)).length = B := by
        simp
      rw [expTrace]
      simp only [hstop, if_false, Bool.false_eq_true, hlen, le_refl, if_true]
      have hrec : play8loop f B fstop volumeAt
          ((List.range' (k + 1 + 1) m).map fun j => j * B) (k + 1) ((k + 1) * B) =
          some (expTrace (fun j => chunk8writes f B (volumeAt j) j) fstop B m (k + 1)) := by
        refine ih (k + 1) ?_
        rcases Nat.eq_zero_or_pos m with hm | hm
        · exact Or.inl hm
        · refine Or.inr ?_
          have h5 : k + 1 + m = k + (m + 1) := by omega
          rw [h5]
          exact hkT
      rw [hrec]
      have hws : ((List.range B).map fun i =>
            Int.fdiv ((((List.range B).map fun i => f.sample (k * B + i)).getD i 0))
              (volumes.getD (volumeAt k) 0)) =
          chunk8writes f B (volumeAt k) k := by
        unfold chunk8writes
        refine List.map_congr_left fun i hiB => ?_
        have hi : i < B := List.mem_range.mp hiB
        rw [getD_map_range B i _ hi]
      simp only [hws]

theorem play16_run (f : WaveFile) (pwm_out : Bool) (B : Nat)
    (fstop : Nat → Bool) (volumeAt : Nat → Nat) (hB : 0 < B) :
    _play16 f pwm_out B fstop volumeAt =
      some (expTrace (fun j => chunk16writes f pwm_out B (volumeAt j) j) fstop B
        (numChunks f.totalFrames B) 0) := by
  have hcond : numChunks f.totalFrames B = 0 ∨
      (0 + numChunks f.totalFrames B) * B < f.totalFrames := by
    rcases Nat.eq_zero_or_pos (numChunks f.totalFrames B) with hm | hm
    · exact Or.inl hm
    · refine Or.inr ?_
      have h1 := numChunks_pos_bound f.totalFrames B (numChunks f.totalFrames B - 1) hB
        (by omega)
      have h2 : numChunks f.totalFrames B - 1 + 1 = numChunks f.totalFrames B := by omega
      rw [h2] at h1
      simpa using h1
  have h := play16loop_spec f pwm_out B fstop volumeAt (numChunks f.totalFrames B) 0 hcond
  unfold _play16 loopPositions
  simpa using h

theorem play8_run (f : WaveFile) (B : Nat)
    (fstop : Nat → Bool) (volumeAt : Nat → Nat) (hB : 0 < B) :
    _play8 f B fstop volumeAt =
      some (expTrace (fun j => chunk8writes f B (volumeAt j) j) fstop B
        (numChunks f.totalFrames B) 0) := by
  have hcond : numChunks f.totalFrames B = 0 ∨
      (0 + numChunks f.totalFrames B) * B < f.totalFrames := by
    rcases Nat.eq_zero_or_pos (numChunks f.totalFrames B) with hm | hm
    · exact Or.inl hm
    · refine Or.inr ?_
      have h1 := numChunks_pos_bound f.totalFrames B (numChunks f.totalFrames B - 1) hB
        (by omega)
      have h2 : numChunks f.totalFrames B - 1 + 1 = numChunks f.totalFrames B := by omega
      rw [h2] at h1
      simpa using h1
  have h := play8loop_spec f B fstop volumeAt (numChunks f.totalFrames B) 0 hcond
  unfold _play8 loopPositions
  simpa using h

theorem expTrace_length_le (w : Nat → List Int) (s : Nat → Bool) (B : Nat) :
    ∀ m k, (expTrace w s B m k).length ≤ m := by
  intro m
  induction m with
  | zero => intro k; simp [expTrace]
  | succ m ih =>
    intro k
    rw [expTrace]
    by_cases hs : s k = true
    · simp [hs]
    · simp only [hs, if_false, List.length_cons]
      exact Nat.succ_le_succ (ih (k + 1))

theorem expTrace_getD (w : Nat → List Int) (s : Nat → Bool) (B : Nat) :
    ∀ m k j, j < (expTrace w s B m k).length →
      (expTrace w s B m k).getD j ⟨0, 0, []⟩ = ⟨(k + j) * B, B, w (k + j)⟩ := by
  intro m
  induction m with
  | zero => intro k j h; simp [expTrace] at h
  | succ m ih =>
    intro k j h
    rw [expTrace] at h ⊢
    by_cases hs : s k = true
    · rw [if_pos hs] at h
      simp at h
    · rw [if_neg hs] at h ⊢
      cases j with
      | zero => simp
      | succ j =>
        rw [List.length_cons] at h
        have h0 : j < (expTrace w s B m (k + 1)).length := by omega
        have h1 := ih (k + 1) j h0
        rw [List.getD_cons_succ, h1]
        have h2 : k + 1 + j = k + (j + 1) := by omega
        rw [h2]

theorem expTrace_mem (w : Nat → List Int) (s : Nat → Bool) (B : Nat) :
    ∀ m k c, c ∈ expTrace w s B m k →
      ∃ j, j < m ∧ (∀ j' ≤ j, s (k + j') = false) ∧ c = ⟨(k + j) * B, B, w (k + j)⟩ := by
  intro m
  induction m with
  | zero => intro k c h; simp [expTrace] at h
  | succ m ih =>
    intro k c h
    rw [expTrace] at h
    by_cases hs : s k = true
    · rw [if_pos hs] at h
      simp at h
    · have hs' : s k = false := by simpa using hs
      rw [if_neg hs] at h
      rcases List.mem_cons.mp h with h | h
      · refine ⟨0, Nat.succ_pos m, fun j' hj' => ?_, by simpa using h⟩
        have hj0 : j' = 0 := Nat.le_zero.mp hj'
        subst hj0
        simpa using hs'
      · obtain ⟨j, hj, hall, hc⟩ := ih (k + 1) c h
        refine ⟨j + 1, Nat.succ_lt_succ hj, fun j' hj' => ?_, ?_⟩
        · cases j' with
          | zero => simpa using hs'
          | succ j'' =>
            have h3 := hall j'' (by omega)
            have h4 : k + (j'' + 1) = k + 1 + j'' := by omega
            rw [h4]
            exact h3
        · have h5 : k + 1 + j = k + (j + 1) := by omega
          rw [h5] at hc
          exact hc

theorem expTrace_stop (w : Nat → List Int) (s : Nat → Bool) (B : Nat) :
    ∀ m k j, s (k + j) = true → (expTrace w s B m k).length ≤ j := by
  intro m
  induction m with
  | zero => intro k j _; simp [expTrace]
  | succ m ih =>
    intro k j hj
    rw [expTrace]
    by_cases hs : s k = true
    · rw [if_pos hs]
      simp
    · rw [if_neg hs, List.length_cons]
      cases j with
      | zero =>
        simp only [Nat.add_zero] at hj
        exact absurd hj hs
      | succ j =>
        have h1 := ih (k + 1) j (by
          have h2 : k + 1 + j = k + (j + 1) := by omega
          rw [h2]
          exact hj)
        omega

theorem chunk16writes_getD (f : WaveFile) (pwm_out : Bool) (B v k i : Nat)
    (hi : i < B) :
    (chunk16writes f pwm_out B v k).getD i 0 =
      if pwm_out then 128 + Int.fdiv (f.sample (k * B + i)) (volumes.getD v 0 * 128)
      else 2048 + Int.fdiv (f.sample (k * B + i)) (volumes.getD v 0 * 16) := by
  unfold chunk16writes
  exact getD_map_range B i _ hi

theorem chunk8writes_getD (f : WaveFile) (B v k i : Nat) (hi : i < B) :
    (chunk8writes f B v k).getD i 0 =
      Int.fdiv (f.sample (k * B + i)) (volumes.getD v 0) := by
  unfold chunk8writes
  exact getD_map_range B i _ hi

theorem expTrace_one (w : Nat → List Int) (s : Nat → Bool) (B k : Nat) :
    expTrace w s B 1 k = if s k then [] else [⟨k * B, B, w k⟩] := by
  have h : (1 : Nat) = 0 + 1 := rfl
  rw [h, expTrace, expTrace]

/-! ## The claims -/

/-- C1: for every chunk streamed in non-loop mode, with `volumeAt k` the
volume index snapshotted at the chunk boundary and `sample (k * B + i)` a
raw sample of chunk `k`, the 16-bit path writes
`128 + s // (volumes[v] * 128)` to the pulse-width backend when PWM
output is selected and `2048 + s // (volumes[v] * 16)` to the DAC
otherwise (Python floor division), and the 8-bit path writes
`s // volumes[v]` with no centre offset. -/
theorem streamed_sample_values (f g : WaveFile) (pwm_out : Bool) (B : Nat)
    (fstop : Nat → Bool) (volumeAt : Nat → Nat) (k i : Nat)
    (t16 t8 : List ChunkTrace) (hB : 0 < B) (hi : i < B)
    (h16 : _play16 f pwm_out B fstop volumeAt = some t16)
    (h8 : _play8 g B fstop volumeAt = some t8)
    (hk16 : k < t16.length) (hk8 : k < t8.length) :
    (t16.getD k ⟨0, 0, []⟩).writes.getD i 0 =
      (if pwm_out then
        128 + Int.fdiv (f.sample (k * B + i)) (volumes.getD (volumeAt k) 0 * 128)
       else
        2048 + Int.fdiv (f.sample (k * B + i)) (volumes.getD (volumeAt k) 0 * 16)) ∧
    (t8.getD k ⟨0, 0, []⟩).writes.getD i 0 =
      Int.fdiv (g.sample (k * B + i)) (volumes.getD (volumeAt k) 0) := by
  rw [play16_run f pwm_out B fstop volumeAt hB] at h16
  rw [play8_run g B fstop volumeAt hB] at h8
  have ht16 : t16 = expTrace (fun j => chunk16writes f pwm_out B (volumeAt j) j)
      fstop B (numChunks f.totalFrames B) 0 := (Option.some.inj h16).symm
  have ht8 : t8 = expTrace (fun j => chunk8writes g B (volumeAt j) j)
      fstop B (numChunks g.totalFrames B) 0 := (Option.some.inj h8).symm
  subst ht16 ht8
  rw [expTrace_getD _ fstop B (numChunks f.totalFrames B) 0 k hk16]
  rw [expTrace_getD _ fstop B (numChunks g.totalFrames B) 0 k hk8]
  simp only [Nat.zero_add]
  exact ⟨chunk16writes_getD f pwm_out B (volumeAt k) k i hi,
    chunk8writes_getD g B (volumeAt k) k i hi⟩

/-- Witness for C1: a 5-frame file streamed with `buffersize = 2`, volume
index 12 (divisor 1), sample `-103` at frame 3 on the 16-bit PWM path
(write `128 + (-103) // 128 = 127`) and sample `103` at frame 3 on the
8-bit path (write `103 // 1 = 103`). -/
theorem streamed_sample_values_witness :
    (([⟨0, 2, [127, 127]⟩, ⟨2, 2, [127, 127]⟩] : List ChunkTrace).getD 1
        ⟨0, 0, []⟩).writes.getD 1 0 =
      (if true then
        128 + Int.fdiv ((WaveFile.mk 5 fun j => -(100 + (j : Int))).sample (1 * 2 + 1))
          (volumes.getD 12 0 * 128)
       else
        2048 + Int.fdiv ((WaveFile.mk 5 fun j => -(100 + (j : Int))).sample (1 * 2 + 1))
          (volumes.getD 12 0 * 16)) ∧
    (([⟨0, 2, [100, 101]⟩, ⟨2, 2, [102, 103]⟩] : List ChunkTrace).getD 1
        ⟨0, 0, []⟩).writes.getD 1 0 =
      Int.fdiv ((WaveFile.mk 5 fun j => 100 + (j : Int)).sample (1 * 2 + 1))
        (volumes.getD 12 0) :=
  streamed_sample_values ⟨5, fun j => -(100 + (j : Int))⟩ ⟨5, fun j => 100 + (j : Int)⟩
    true 2 (fun _ => false) (fun _ => 12) 1 1
    [⟨0, 2, [127, 127]⟩, ⟨2, 2, [127, 127]⟩] [⟨0, 2, [100, 101]⟩, ⟨2, 2, [102, 103]⟩]
    (by decide) (by decide) (by decide) (by decide) (by decide) (by decide)

/-- C2: in non-loop mode, if `totalFrames < buffersize` the loop body
never executes — the run is `some []`, zero chunks and zero output
writes; and when `buffersize` does not divide `totalFrames`, every read
(hence every written sample) stays below `buffersize * (totalFrames /
buffersize)`, so the final partial chunk `[buffersize * (totalFrames /
buffersize), totalFrames)` is never read and never written, on both the
16-bit and the 8-bit path. -/
theorem final_partial_chunk_never_written (f : WaveFile) (pwm_out : Bool) (B : Nat)
    (fstop : Nat → Bool) (volumeAt : Nat → Nat) (hB : 0 < B) :
    (f.totalFrames < B →
      _play16 f pwm_out B fstop volumeAt = some [] ∧
      _play8 f B fstop volumeAt = some []) ∧
    (¬ B ∣ f.totalFrames →
      (∀ t, _play16 f pwm_out B fstop volumeAt = some t →
        ∀ c ∈ t, c.readStart + c.readCount ≤ B * (f.totalFrames / B)) ∧
      (∀ t, _play8 f B fstop volumeAt = some t →
        ∀ c ∈ t, c.readStart + c.readCount ≤ B * (f.totalFrames / B))) := by
  have hread : ∀ c ∈ expTrace (fun j => chunk16writes f pwm_out B (volumeAt j) j)
      fstop B (numChunks f.totalFrames B) 0,
      c.readStart + c.readCount ≤ B * (f.totalFrames / B) := by
    intro c hc
    obtain ⟨j, hj, -, hcj⟩ := expTrace_mem _ fstop B _ 0 c hc
    subst hcj
    simp only [Nat.zero_add]
    have h1 : (j + 1) * B ≤ numChunks f.totalFrames B * B :=
      Nat.mul_le_mul_right _ (by omega)
    have h2 : numChunks f.totalFrames B ≤ f.totalFrames / B :=
      Nat.div_le_div_right (Nat.sub_le _ _)
    have h3 : numChunks f.totalFrames B * B ≤ f.totalFrames / B * B :=
      Nat.mul_le_mul_right _ h2
    have h4 : j * B + B = (j + 1) * B := by ring
    have h5 : f.totalFrames / B * B = B * (f.totalFrames / B) := by ring
    omega
  have hread8 : ∀ c ∈ expTrace (fun j => chunk8writes f B (volumeAt j) j)
      fstop B (numChunks f.totalFrames B) 0,
      c.readStart + c.readCount ≤ B * (f.totalFrames / B) := by
    intro c hc
    obtain ⟨j, hj, -, hcj⟩ := expTrace_mem _ fstop B _ 0 c hc
    subst hcj
    simp only [Nat.zero_add]
    have h1 : (j + 1) * B ≤ numChunks f.totalFrames B * B :=
      Nat.mul_le_mul_right _ (by omega)
    have h2 : numChunks f.totalFrames B ≤ f.totalFrames / B :=
      Nat.div_le_div_right (Nat.sub_le _ _)
    have h3 : numChunks f.totalFrames B * B ≤ f.totalFrames / B * B :=
      Nat.mul_le_mul_right _ h2
    have h4 : j * B + B = (j + 1) * B := by ring
    have h5 : f.totalFrames / B * B = B * (f.totalFrames / B) := by ring
    omega
  refine ⟨fun hTB => ?_, fun _ => ⟨fun t ht c hc => ?_, fun t ht c hc => ?_⟩⟩
  · have hm : numChunks f.totalFrames B = 0 := by
      unfold numChunks
      exact Nat.div_eq_of_lt (by omega)
    rw [play16_run f pwm_out B fstop volumeAt hB, play8_run f B fstop volumeAt hB, hm]
    exact ⟨rfl, rfl⟩
  · rw [play16_run f pwm_out B fstop volumeAt hB] at ht
    have h6 := (Option.some.inj ht).symm
    subst h6
    exact hread c hc
  · rw [play8_run f B fstop volumeAt hB] at ht
    have h6 := (Option.some.inj ht).symm
    subst h6
    exact hread8 c hc

/-- Witness for C2 at a 1-frame file with `buffersize = 2` (loop body
never executes) and a 5-frame file with `buffersize = 2` (partial final
frame 4 never read). -/
theorem final_partial_chunk_never_written_witness :
    (_play16 ⟨1, fun _ => 0⟩ true 2 (fun _ => false) (fun _ => 0) = some [] ∧
      _play8 ⟨1, fun _ => 0⟩ 2 (fun _ => false) (fun _ => 0) = some []) ∧
    (∀ t, _play8 ⟨5, fun _ => 0⟩ 2 (fun _ => false) (fun _ => 0) = some t →
      ∀ c ∈ t, c.readStart + c.readCount ≤ 2 * ((5 : Nat) / 2)) :=
  ⟨(final_partial_chunk_never_written ⟨1, fun _ => 0⟩ true 2 (fun _ => false)
      (fun _ => 0) (by decide)).1 (by decide),
   ((final_partial_chunk_never_written ⟨5, fun _ => 0⟩ true 2 (fun _ => false)
      (fun _ => 0) (by decide)).2 (by decide)).2⟩

/-- C4: every in-loop read of the non-loop streaming loop covers exactly
the frames `[position - buffersize, position)` for a loop position
`position ∈ range(buffersize, totalFrames, buffersize)`, which lies
entirely within `[0, totalFrames)`; every in-loop read returns a full
`buffersize` samples, no read goes past `totalFrames`, and the run never
hits the out-of-bounds (`none`) indexing path, on both sample widths. -/
theorem in_loop_reads_within_bounds (f : WaveFile) (pwm_out : Bool) (B : Nat)
    (fstop : Nat → Bool) (volumeAt : Nat → Nat) (hB : 0 < B) :
    (∃ t, _play16 f pwm_out B fstop volumeAt = some t ∧
      ∀ c ∈ t, ∃ p ∈ loopPositions f.totalFrames B,
        B ≤ p ∧ p < f.totalFrames ∧ c.readStart = p - B ∧ c.readCount = B ∧
        c.readStart + c.readCount ≤ f.totalFrames) ∧
    (∃ t, _play8 f B fstop volumeAt = some t ∧
      ∀ c ∈ t, ∃ p ∈ loopPositions f.totalFrames B,
        B ≤ p ∧ p < f.totalFrames ∧ c.readStart = p - B ∧ c.readCount = B ∧
        c.readStart + c.readCount ≤ f.totalFrames) := by
  constructor
  · refine ⟨_, play16_run f pwm_out B fstop volumeAt hB, ?_⟩
    intro c hc
    obtain ⟨j, hj, -, hcj⟩ := expTrace_mem _ fstop B _ 0 c hc
    subst hcj
    have hp := numChunks_pos_bound f.totalFrames B j hB hj
    refine ⟨(j + 1) * B, mem_loopPositions f.totalFrames B j hj, ?_, hp, ?_, rfl, ?_⟩
    · have : 1 * B ≤ (j + 1) * B := Nat.mul_le_mul_right _ (by omega)
      omega
    · simp only [Nat.zero_add]
      have : (j + 1) * B = j * B + B := by ring
      omega
    · simp only [Nat.zero_add]
      have : (j + 1) * B = j * B + B := by ring
      omega
  · refine ⟨_, play8_run f B fstop volumeAt hB, ?_⟩
    intro c hc
    obtain ⟨j, hj, -, hcj⟩ := expTrace_mem _ fstop B _ 0 c hc
    subst hcj
    have hp := numChunks_pos_bound f.totalFrames B j hB hj
    refine ⟨(j + 1) * B, mem_loopPositions f.totalFrames B j hj, ?_, hp, ?_, rfl, ?_⟩
    · have : 1 * B ≤ (j + 1) * B := Nat.mul_le_mul_right _ (by omega)
      omega
    · simp only [Nat.zero_add]
      have : (j + 1) * B = j * B + B := by ring
      omega
    · simp only [Nat.zero_add]
      have : (j + 1) * B = j * B + B := by ring
      omega

/-- Witness for C4 at a 5-frame file with `buffersize = 2`. -/
theorem in_loop_reads_within_bounds_witness :
    (∃ t, _play16 ⟨5, fun _ => 0⟩ true 2 (fun _ => false) (fun _ => 0) = some t ∧
      ∀ c ∈ t, ∃ p ∈ loopPositions 5 2,
        2 ≤ p ∧ p < 5 ∧ c.readStart = p - 2 ∧ c.readCount = 2 ∧
        c.readStart + c.readCount ≤ 5) ∧
    (∃ t, _play8 ⟨5, fun _ => 0⟩ 2 (fun _ => false) (fun _ => 0) = some t ∧
      ∀ c ∈ t, ∃ p ∈ loopPositions 5 2,
        2 ≤ p ∧ p < 5 ∧ c.readStart = p - 2 ∧ c.readCount = 2 ∧
        c.readStart + c.readCount ≤ 5) :=
  in_loop_reads_within_bounds ⟨5, fun _ => 0⟩ true 2 (fun _ => false) (fun _ => 0)
    (by decide)

/-- C5: if the stop flag is observed set at the check that precedes chunk
`k` (0-based; equivalently, the flag was raised after chunk `k` in 1-based
counting), the loop terminates at that chunk boundary: at most `k` chunks
are ever traced and every read — hence every output write — stays below
frame `k * buffersize`, so no sample of any later chunk is written, on
both sample widths. -/
theorem stop_flag_halts_streaming (f : WaveFile) (pwm_out : Bool) (B : Nat)
    (fstop : Nat → Bool) (volumeAt : Nat → Nat) (k : Nat)
    (hB : 0 < B) (hstop : fstop k = true) :
    (∀ t, _play16 f pwm_out B fstop volumeAt = some t →
      t.length ≤ k ∧ ∀ c ∈ t, c.readStart + c.readCount ≤ k * B) ∧
    (∀ t, _play8 f B fstop volumeAt = some t →
      t.length ≤ k ∧ ∀ c ∈ t, c.readStart + c.readCount ≤ k * B) := by
  have hmem : ∀ (w : Nat → List Int) (m : Nat) (c : ChunkTrace),
      c ∈ expTrace w fstop B m 0 → c.readStart + c.readCount ≤ k * B := by
    intro w m c hc
    obtain ⟨j, hj, hall, hcj⟩ := expTrace_mem w fstop B m 0 c hc
    subst hcj
    simp only [Nat.zero_add]
    have hjk : j < k := by
      by_contra hge
      have h1 := hall k (by omega)
      rw [Nat.zero_add] at h1
      rw [hstop] at h1
      simp at h1
    have h2 : (j + 1) * B ≤ k * B := Nat.mul_le_mul_right _ (by omega)
    have h3 : (j + 1) * B = j * B + B := by ring
    omega
  refine ⟨fun t ht => ?_, fun t ht => ?_⟩
  · rw [play16_run f pwm_out B fstop volumeAt hB] at ht
    have h6 := (Option.some.inj ht).symm
    subst h6
    refine ⟨?_, hmem (fun j => chunk16writes f pwm_out B (volumeAt j) j)
      (numChunks f.totalFrames B)⟩
    exact expTrace_stop _ fstop B (numChunks f.totalFrames B) 0 k
      (by rw [Nat.zero_add]; exact hstop)
  · rw [play8_run f B fstop volumeAt hB] at ht
    have h6 := (Option.some.inj ht).symm
    subst h6
    refine ⟨?_, hmem (fun j => chunk8writes f B (volumeAt j) j)
      (numChunks f.totalFrames B)⟩
    exact expTrace_stop _ fstop B (numChunks f.totalFrames B) 0 k
      (by rw [Nat.zero_add]; exact hstop)

/-- Witness for C5: with the stop flag raised from chunk 2 on, a 9-frame
file with `buffersize = 2` traces exactly the first 2 chunks and nothing
past frame 4. -/
theorem stop_flag_halts_streaming_witness :
    ([⟨0, 2, [0, 0]⟩, ⟨2, 2, [0, 0]⟩] : List ChunkTrace).length ≤ 2 ∧
    ∀ c ∈ ([⟨0, 2, [0, 0]⟩, ⟨2, 2, [0, 0]⟩] : List ChunkTrace),
      c.readStart + c.readCount ≤ 2 * 2 :=
  (stop_flag_halts_streaming ⟨9, fun _ => 0⟩ true 2 (fun n => decide (2 ≤ n))
    (fun _ => 0) 2 (by decide) (by decide)).2
    [⟨0, 2, [0, 0]⟩, ⟨2, 2, [0, 0]⟩] (by decide)

/-- C3 counterexample: an 8-bit source of exactly `2 * 2048` total frames
streamed in non-loop mode (volume level 10, stop flag never raised)
issues 2048 output writes, not `2 * 2048`: the loop
`range(2048, 4096, 2048)` contains the single position 2048 (4096 is
excluded), so only one chunk is streamed. -/
theorem two_buffer_write_count_refuted :
    (_play8 ⟨2 * 2048, fun _ => 0⟩ 2048 (fun _ => false) (fun _ => 10)).map
        (fun t => (allWrites t).length) = some 2048 ∧
    (2048 : Nat) ≠ 2 * 2048 := by
  constructor
  · rw [play8_run ⟨2 * 2048, fun _ => 0⟩ 2048 (fun _ => false) (fun _ => 10)
      (by norm_num)]
    have hm : numChunks (2 * 2048) 2048 = 1 := by decide
    rw [hm, expTrace_one]
    simp [allWrites, chunk8writes]
  · norm_num

/-- C3 amended: for an 8-bit unsigned source of exactly `2 * buffersize`
total frames, non-loop streaming playback issues exactly `buffersize`
output writes (a single full chunk) and then terminates: the loop
positions `range(buffersize, totalFrames, buffersize)` stop strictly
below `totalFrames`, so the second (final) chunk is never streamed. -/
theorem two_buffer_write_count (f : WaveFile) (B : Nat)
    (fstop : Nat → Bool) (volumeAt : Nat → Nat)
    (hB : 0 < B) (hT : f.totalFrames = 2 * B) (hs : ∀ n, fstop n = false) :
    (_play8 f B fstop volumeAt).map (fun t => (allWrites t).length) = some B := by
  rw [play8_run f B fstop volumeAt hB]
  have hm : numChunks f.totalFrames B = 1 := by
    rw [hT]
    unfold numChunks
    exact Nat.div_eq_of_lt_le (by omega) (by omega)
  rw [hm, expTrace_one, hs 0]
  simp [allWrites, chunk8writes]

/-- Witness for C3 (amended) at an 8-frame file with `buffersize = 4`. -/
theorem two_buffer_write_count_witness :
    (_play8 ⟨8, fun _ => 0⟩ 4 (fun _ => false) (fun _ => 0)).map
      (fun t => (allWrites t).length) = some 4 :=
  two_buffer_write_count ⟨8, fun _ => 0⟩ 4 (fun _ => false) (fun _ => 0)
    (by decide) (by decide) (fun _ => rfl)

/-- C7: the volume table is exactly `[49,31,21,15,11,9,7,6,5,4,3,2,1]`, a
sequence of 13 positive integers that is strictly decreasing at every
adjacent pair, so a larger volume index always has a strictly smaller
attenuation divisor. -/
theorem volumes_strictly_decreasing :
    volumes = [49, 31, 21, 15, 11, 9, 7, 6, 5, 4, 3, 2, 1] ∧
    volumes.length = 13 ∧
    List.Chain' (fun a b => a > b) volumes ∧
    volumes.all (fun v => 0 < v) = true := by
  refine ⟨rfl, rfl, ?_, by decide⟩
  norm_num [volumes, List.chain'_cons]

/-- C8: `set_volume v` leaves the volume unchanged whenever `v` lies
outside `[0, 12]` (in particular `set_volume 13` after `set_volume 5`
leaves the volume at 5), and sets the volume to `v` whenever `v` lies
inside `[0, 12]`. -/
theorem set_volume_clamps (volume v : Int) :
    (¬ (0 ≤ v ∧ v ≤ 12) → set_volume volume v = volume) ∧
    ((0 ≤ v ∧ v ≤ 12) → set_volume volume v = v) ∧
    set_volume (set_volume volume 5) 13 = 5 := by
  refine ⟨fun h => ?_, fun h => ?_, ?_⟩
  · simp [set_volume, h]
  · simp [set_volume, h]
  · norm_num [set_volume]

/-- Witness for C8 at `volume = 5`, `v = 13` and `v = 7`. -/
theorem set_volume_clamps_witness :
    set_volume 5 13 = 5 ∧ set_volume 5 7 = 7 :=
  ⟨(set_volume_clamps 5 13).1 (by decide), (set_volume_clamps 5 7).2.1 (by decide)⟩

/-- C9: starting from any volume level in `[0, 12]`, `volume_up`
increments the level unless it is 12 and `volume_down` decrements it
unless it is 0, both staying inside `[0, 12]`; 20 iterated `volume_up`
calls from 0 end at exactly 12 and 20 iterated `volume_down` calls from
12 end at exactly 0. -/
theorem volume_controls_saturate (v : Int) (h0 : 0 ≤ v) (h12 : v ≤ 12) :
    (v < 12 → volume_up v = v + 1) ∧
    (v = 12 → volume_up v = 12) ∧
    (0 < v → volume_down v = v - 1) ∧
    (v = 0 → volume_down v = 0) ∧
    (0 ≤ volume_up v ∧ volume_up v ≤ 12) ∧
    (0 ≤ volume_down v ∧ volume_down v ≤ 12) ∧
    volume_up^[20] 0 = 12 ∧
    volume_down^[20] 12 = 0 := by
  unfold volume_up volume_down
  refine ⟨fun h => by simp [h], fun h => by simp [h], fun h => by simp [h],
    fun h => by simp [h], ?_, ?_, by decide, by decide⟩
  · split <;> omega
  · split <;> omega

/-- Witness for C9 at `v = 5`. -/
theorem volume_controls_saturate_witness :
    (5 < (12 : Int) → volume_up 5 = 6) ∧ volume_up^[20] 0 = 12 := by
  have h := volume_controls_saturate 5 (by decide) (by decide)
  exact ⟨fun _ => h.1 (by decide), h.2.2.2.2.2.2.1⟩

/-- C10: constructed with `loop = True` and `pwm = True`, `begin`
configures only the PWM output and leaves the DAC slot `None`; the
loop-mode branches of `play` and `stop` nevertheless call methods on
`self.dac`, so they hit the `AttributeError` (`none`) path, and over both
values of the `pwm` flag the loop-mode `play` and `stop` are well-defined
exactly when `pwm = false`. -/
theorem loop_mode_defined_only_without_pwm :
    (begin (AUDIO_PLAYER true true)).pwm_out = true ∧
    (begin (AUDIO_PLAYER true true)).dac = false ∧
    play (begin (AUDIO_PLAYER true true)) = none ∧
    stop (begin (AUDIO_PLAYER true true)) = none ∧
    (∀ pwm : Bool, (play (begin (AUDIO_PLAYER pwm true))).isSome = !pwm) ∧
    (∀ pwm : Bool, (stop (begin (AUDIO_PLAYER pwm true))).isSome = !pwm) := by
  decide

end AudioPlayer
